import Mathlib

/-!
# Verification of the `black` software rasterizer core

A shallow embedding of the scan-conversion core of the `black` repository:

* `black-raster/src/raster.rs` (`Raster::triangle`, `run_fragment`,
  `render_bottom_flat_triangle`, `render_top_flat_triangle`, `draw_line`,
  `edge`),
* `black-raster/src/depth.rs` (`DepthBuffer`),
* `black-codegen/src/interpolate.rs` (the generated `Interpolate`
  implementation: `new` / `correct` / `interpolate` per leaf field).

Modelling conventions:

* `f32` values are embedded as exact rationals (`ℚ`).  Rounding of `f32`
  arithmetic is not modelled; IEEE division by zero (producing `inf`/`NaN`)
  falls back to Lean's `x / 0 = 0` convention, and every concrete theorem
  below is evaluated at inputs where no such division influences the stated
  observable.
* Rust `f as i32` truncates toward zero (`truncQ`); `f32::floor` is `floorQ`.
* Mutation is modelled by explicit state passing.  The rasterizer's
  per-pixel loop never reads the depth buffer or target except in the
  per-pixel depth-test branch, so scan conversion is split into a pure
  pixel-visit enumeration (`fragmentVisits`, mirroring the nested loops of
  the Rust code) followed by a fold of the per-pixel body (`pixelStep`)
  over that list; this is observationally the Rust control flow.
* The `VertexProgram` / `FragmentProgram` / `TargetBuffer` traits are
  declared in `black-raster/src/lib.rs`, which is not among the provided
  sources; their shapes are modelled from the spec (§4.4): a vertex program
  is a pure function `Uniform → Vertex → ClipPosition × Varying` (the Rust
  out-parameter becomes the returned pair), a fragment program is
  `Uniform → Varying → Color`, and a target exposes width/height/set and
  is never read by the rasterizer.
* Every call to `DepthBuffer::get/set`, the fragment program, and
  `TargetBuffer::set` is recorded in an event trace.
-/

namespace Black

/-- `f32` values, modelled as exact rationals. -/
abbrev F : Type := ℚ

/-- `f32::MAX` = (2 - 2⁻²³) · 2¹²⁷, the value `DepthBuffer::clear` stores. -/
def f32Max : F := 2 ^ 128 - 2 ^ 104

/-- `black_math::Vec2` (only the fields the rasterizer uses). -/
structure Vec2q where
  x : F
  y : F
deriving DecidableEq

/-- `black_math::Vec4` (only the fields the rasterizer uses). -/
structure Vec4q where
  x : F
  y : F
  z : F
  w : F
deriving DecidableEq

/-- Rust `f as i32`: truncation toward zero (saturation is not modelled;
all concrete inputs below are far from the `i32` range ends). -/
def truncQ (q : F) : ℤ := if 0 ≤ q then ⌊q⌋ else ⌈q⌉

/-- Rust `f32::floor`. -/
def floorQ (q : F) : F := ((⌊q⌋ : ℤ) : F)

/-- The inclusive integer range `lo..=hi` of a Rust `for` loop, as a list. -/
def intRange (lo hi : ℤ) : List ℤ :=
  (List.range (hi + 1 - lo).toNat).map (fun k : ℕ => lo + (k : ℤ))

/-- `Raster::edge` (raster.rs, line 420):
`(v2.x - v0.x) * (v1.y - v0.y) - (v2.y - v0.y) * (v1.x - v0.x)`. -/
def edgeQ (v0 v1 v2 : Vec2q) : F :=
  (v2.x - v0.x) * (v1.y - v0.y) - (v2.y - v0.y) * (v1.x - v0.x)

/-- The screen-mapping step of `Raster::triangle` (raster.rs, lines 80-91):
`Vec2::new(floor(((p.x / p.w) * width) + half_width),
           floor(((-p.y / p.w) * height) + half_height))`
with `half_width = width * 0.5`, `half_height = height * 0.5`. -/
def screenMap (p : Vec4q) (width height : F) : Vec2q :=
  ⟨floorQ ((p.x / p.w) * width + width * (0.5 : F)),
   floorQ ((-p.y / p.w) * height + height * (0.5 : F))⟩

/-- The trivial-reject test of `Raster::triangle` (raster.rs, line 74):
`position_0.z < 0.0 || position_1.z < 0.0 || position_2.z < 0.0`.
This is the only test performed before the perspective divide. -/
def zReject (p0 p1 p2 : Vec4q) : Bool :=
  decide (p0.z < 0) || decide (p1.z < 0) || decide (p2.z < 0)

/-- `black_raster::DepthBuffer` (depth.rs): a row-major flat grid of `f32`. -/
structure DepthBuffer where
  width : ℕ
  height : ℕ
  data : List F
deriving DecidableEq

namespace DepthBuffer

/-- `DepthBuffer::new`: `vec![0.0; width * height]`. -/
def new (width height : ℕ) : DepthBuffer :=
  ⟨width, height, List.replicate (width * height) 0⟩

/-- `DepthBuffer::clear`: sets every cell to `f32::MAX`. -/
def clear (b : DepthBuffer) : DepthBuffer :=
  { b with data := b.data.map (fun _ => f32Max) }

/-- `DepthBuffer::get`: `data[x + y * width]` (in-bounds indexing is the
caller's obligation in the Rust code; out-of-bounds reads default to 0
in the model and never occur on the domains of the theorems below). -/
def get (b : DepthBuffer) (x y : ℕ) : F :=
  b.data.getD (x + y * b.width) 0

/-- `DepthBuffer::set`: `data[x + y * width] = z`. -/
def set (b : DepthBuffer) (x y : ℕ) (z : F) : DepthBuffer :=
  { b with data := b.data.set (x + y * b.width) z }

end DepthBuffer

/-- Modelled from the spec: the `TargetBuffer` trait (§4.4, declared in the
missing `black-raster/src/lib.rs`) exposes `width()`, `height()`,
`set(x, y, color)` and is never read by the rasterizer.  Concretely backed
by a row-major flat grid over an arbitrary color type. -/
structure Target (C : Type) where
  width : ℕ
  height : ℕ
  data : List C
deriving DecidableEq

namespace Target

/-- A fresh target filled with one color (helper for concrete runs). -/
def new (width height : ℕ) (c : C) : Target C :=
  ⟨width, height, List.replicate (width * height) c⟩

/-- `TargetBuffer::set` for the flat-grid target. -/
def set (t : Target C) (x y : ℕ) (c : C) : Target C :=
  { t with data := t.data.set (x + y * t.width) c }

end Target

/-- One recorded effect of a rasterizer run: a depth-buffer read, a
depth-buffer write, a fragment-program invocation, or a target write.
Coordinates are recorded as the `i32` values at the call site. -/
inductive Ev (C : Type) where
  | depthGet (x y : ℤ) (stored : F)
  | depthSet (x y : ℤ) (value : F)
  | fragCall
  | targetSet (x y : ℤ) (c : C)
deriving DecidableEq

/-- The mutable state threaded through one `Raster::triangle` call, plus
the event trace. -/
structure RState (C : Type) where
  depth : DepthBuffer
  target : Target C
  events : List (Ev C)
deriving DecidableEq

/-- Modelled from the spec: the `Interpolate` trait operations a `Varying`
type supplies (black-raster/src/interpolate.rs gives the trait; the
per-type bodies are generated by black-codegen).  `correct v w` divides the
bundle by `w`; `interp v0 v1 v2 w0 w1 w2 w` is the perspective-correct
blend. -/
structure InterpOps (V : Type) where
  correct : V → F → V
  interp : V → V → V → F → F → F → F → V

/-- The per-triangle constants `run_fragment` passes down to `draw_line`:
the interpolation ops, fragment program (uniform closed over), the three
perspective-corrected varyings, the three screen positions `clippos_i`,
and the three `corrected_z_i = 1 / position_i.w`. -/
structure FragCtx (V C : Type) where
  ops : InterpOps V
  frag : V → C
  var0 : V
  var1 : V
  var2 : V
  c0 : Vec2q
  c1 : Vec2q
  c2 : Vec2q
  z0 : F
  z1 : F
  z2 : F

/-- The three barycentric weights of a pixel (raster.rs, lines 389-391):
`edge(c1, c2, p)/e`, `edge(c2, c0, p)/e`, `edge(c0, c1, p)/e` with
`e = edge(c0, c1, c2)`. -/
def pixelWeights (ctx : FragCtx V C) (x y : ℤ) : F × F × F :=
  let p : Vec2q := ⟨(x : F), (y : F)⟩
  let e := edgeQ ctx.c0 ctx.c1 ctx.c2
  (edgeQ ctx.c1 ctx.c2 p / e, edgeQ ctx.c2 ctx.c0 p / e, edgeQ ctx.c0 ctx.c1 p / e)

/-- `calculated_depth` of a pixel (raster.rs, lines 394-397):
`w0 * corrected_z_0 + w1 * corrected_z_1 + w2 * corrected_z_2`. -/
def pixelDepth (ctx : FragCtx V C) (x y : ℤ) : F :=
  let (w0, w1, w2) := pixelWeights ctx x y
  w0 * ctx.z0 + w1 * ctx.z1 + w2 * ctx.z2

/-- The depth-test comparison of `draw_line` (raster.rs, line 400):
`calculated_depth > depth.get(x, y)`. -/
def depthPasses (calculatedDepth stored : F) : Prop :=
  stored < calculatedDepth

instance : DecidablePred fun p : F × F => depthPasses p.1 p.2 := fun _ =>
  inferInstanceAs (Decidable (_ < _))

instance (d s : F) : Decidable (depthPasses d s) :=
  inferInstanceAs (Decidable (_ < _))

/-- The body of the per-pixel loop of `draw_line` (raster.rs, lines
388-415): read the stored depth, and when the fragment's depth is strictly
greater, write the depth, interpolate the varying (with
`calculated_depth` as the perspective denominator), run the fragment
program and write the resulting color. -/
def pixelStep (ctx : FragCtx V C) (st : RState C) (xy : ℤ × ℤ) : RState C :=
  let x := xy.1
  let y := xy.2
  let ws := pixelWeights ctx x y
  let d := pixelDepth ctx x y
  let stored := st.depth.get x.toNat y.toNat
  if depthPasses d stored then
    let varying := ctx.ops.interp ctx.var0 ctx.var1 ctx.var2 ws.1 ws.2.1 ws.2.2 d
    let color := ctx.frag varying
    { depth := st.depth.set x.toNat y.toNat d
      target := st.target.set x.toNat y.toNat color
      events := st.events ++
        [.depthGet x y stored, .depthSet x y d, .fragCall, .targetSet x y color] }
  else
    { st with events := st.events ++ [.depthGet x y stored] }

/-- The pixels one `draw_line` call visits (raster.rs, lines 373-388):
rows with `y` outside `[0, height)` are skipped entirely, and `x` runs over
`max(0, min(x0, x1)) ..= min(width - 1, max(x0, x1))`. -/
def drawLineVisits (width height : ℕ) (curX0 curX1 y : ℤ) : List (ℤ × ℤ) :=
  if y < 0 ∨ (height : ℤ) ≤ y then []
  else
    (intRange (max 0 (min curX0 curX1)) (min ((width : ℤ) - 1) (max curX0 curX1))).map
      (fun x => (x, y))

/-- The pixels `render_bottom_flat_triangle` visits (raster.rs, lines
239-292): rows `p0.y as i32 ..= p1.y as i32`, where row `k` uses
`cur_x0 = p0.x + k * slope_0` and `cur_x1 = p0.x + k * slope_1` (the code
accumulates the slopes after each row). -/
def bottomFlatVisits (width height : ℕ) (p0 p1 p2 : Vec2q) : List (ℤ × ℤ) :=
  let slope0 := (p1.x - p0.x) / (p1.y - p0.y)
  let slope1 := (p2.x - p0.x) / (p2.y - p0.y)
  let y0 := truncQ p0.y
  let y1 := truncQ p1.y
  (List.range (y1 + 1 - y0).toNat).flatMap fun k =>
    drawLineVisits width height
      (truncQ (p0.x + (k : F) * slope0)) (truncQ (p0.x + (k : F) * slope1)) (y0 + (k : ℤ))

/-- The pixels `render_top_flat_triangle` visits (raster.rs, lines
295-348): rows `(p1.y as i32 ..= p2.y as i32).rev()`, where the `k`-th row
drawn is `y = p2.y as i32 - k` with `cur_x0 = p2.x - k * slope_0`,
`cur_x1 = p2.x - k * slope_1`. -/
def topFlatVisits (width height : ℕ) (p0 p1 p2 : Vec2q) : List (ℤ × ℤ) :=
  let slope0 := (p2.x - p0.x) / (p2.y - p0.y)
  let slope1 := (p2.x - p1.x) / (p2.y - p1.y)
  let y1 := truncQ p1.y
  let y2 := truncQ p2.y
  (List.range (y2 + 1 - y1).toNat).flatMap fun k =>
    drawLineVisits width height
      (truncQ (p2.x - (k : F) * slope0)) (truncQ (p2.x - (k : F) * slope1)) (y2 - (k : ℤ))

/-- The vertex ordering of `run_fragment` (raster.rs, lines 140-148):
three conditional swaps yielding y-ascending order. -/
def sortByY (a b c : Vec2q) : Vec2q × Vec2q × Vec2q :=
  let ab := if a.y > b.y then (b, a) else (a, b)
  let bc := if ab.2.y > c.y then (c, ab.2) else (ab.2, c)
  let ab' := if ab.1.y > bc.1.y then (bc.1, ab.1) else (ab.1, bc.1)
  (ab'.1, ab'.2, bc.2)

/-- The pixels one `run_fragment` call visits (raster.rs, lines 134-236):
sort by y; a flat-bottom or flat-top triangle is scanned directly,
otherwise the triangle is split at the middle vertex's y, the split x
being `(p0.x + ((p1.y - p0.y) / (p2.y - p0.y)) * (p2.x - p0.x)) as i32 as
f32`. -/
def fragmentVisits (width height : ℕ) (c0 c1 c2 : Vec2q) : List (ℤ × ℤ) :=
  let s := sortByY c0 c1 c2
  let p0 := s.1
  let p1 := s.2.1
  let p2 := s.2.2
  if p1.y = p2.y then bottomFlatVisits width height p0 p1 p2
  else if p0.y = p1.y then topFlatVisits width height p0 p1 p2
  else
    let p3 : Vec2q :=
      ⟨((truncQ (p0.x + ((p1.y - p0.y) / (p2.y - p0.y)) * (p2.x - p0.x)) : ℤ) : F), p1.y⟩
    bottomFlatVisits width height p0 p1 p3 ++ topFlatVisits width height p1 p3 p2

/-- `Raster::run_fragment` together with the scanline loops: fold the
per-pixel body over the visited pixels.  The pixel enumeration reads only
the target's dimensions, never the buffers' contents, so this fold is the
Rust nested-loop control flow. -/
def runFragment (ctx : FragCtx V C) (st : RState C) : RState C :=
  (fragmentVisits st.target.width st.target.height ctx.c0 ctx.c1 ctx.c2).foldl
    (pixelStep ctx) st

/-- The argument bundle `Raster::triangle` passes to `run_fragment`
(raster.rs, lines 95-109): the perspective-corrected varyings
`correct(varying_i, position_i.w)`, the screen positions, and
`corrected_z_i = 1.0 / position_i.w`. -/
def triCtx {TU TVert V C : Type} (ops : InterpOps V)
    (vertexMain : TU → TVert → Vec4q × V) (fragmentMain : TU → V → C)
    (uniform : TU) (v0 v1 v2 : TVert) (width height : ℕ) : FragCtx V C :=
  { ops := ops
    frag := fragmentMain uniform
    var0 := ops.correct (vertexMain uniform v0).2 (vertexMain uniform v0).1.w
    var1 := ops.correct (vertexMain uniform v1).2 (vertexMain uniform v1).1.w
    var2 := ops.correct (vertexMain uniform v2).2 (vertexMain uniform v2).1.w
    c0 := screenMap (vertexMain uniform v0).1 (width : F) (height : F)
    c1 := screenMap (vertexMain uniform v1).1 (width : F) (height : F)
    c2 := screenMap (vertexMain uniform v2).1 (width : F) (height : F)
    z0 := 1 / (vertexMain uniform v0).1.w
    z1 := 1 / (vertexMain uniform v1).1.w
    z2 := 1 / (vertexMain uniform v2).1.w }

/-- `Raster::triangle` (raster.rs, lines 42-111).  The vertex program is
modelled from the spec (§4.4) as a pure function returning the clip
position and the populated varying; `uniform` is the per-draw constant
bundle.  Order of operations as in the code: vertex stage, `z < 0`
trivial reject, screen mapping, winding test (`edge >= 0` draws), then
scan conversion. -/
def triangle {TU TVert V C : Type} (ops : InterpOps V)
    (vertexMain : TU → TVert → Vec4q × V) (fragmentMain : TU → V → C)
    (depth : DepthBuffer) (target : Target C) (uniform : TU)
    (v0 v1 v2 : TVert) : RState C :=
  let width : F := (target.width : F)
  let height : F := (target.height : F)
  let pv0 := vertexMain uniform v0
  let pv1 := vertexMain uniform v1
  let pv2 := vertexMain uniform v2
  if zReject pv0.1 pv1.1 pv2.1 then ⟨depth, target, []⟩
  else
    let c0 := screenMap pv0.1 width height
    let c1 := screenMap pv1.1 width height
    let c2 := screenMap pv2.1 width height
    if 0 ≤ edgeQ c0 c1 c2 then
      runFragment (triCtx ops vertexMain fragmentMain uniform v0 v1 v2 target.width target.height)
        ⟨depth, target, []⟩
    else ⟨depth, target, []⟩

/-! ## The generated `Interpolate` implementation (black-codegen/src/interpolate.rs)

`impl_interpolate` emits, for a struct whose fields all have kind `f32`,
`Vec2`, `Vec3` or `Vec4`, an `Interpolate` implementation acting on each
field according to its kind (any other kind panics at generation time).
A field value is modelled as a `Leaf`, a struct as the list of its field
values. -/

/-- The supported leaf-field kinds of the code generator. -/
inductive FieldKind where
  | f32Field
  | vec2Field
  | vec3Field
  | vec4Field
deriving DecidableEq

/-- One leaf field value of a varying bundle. -/
inductive Leaf where
  | f32l (v : F)
  | vec2l (x y : F)
  | vec3l (x y z : F)
  | vec4l (x y z w : F)
deriving DecidableEq

/-- The kind of a leaf field. -/
def Leaf.kind : Leaf → FieldKind
  | .f32l _ => .f32Field
  | .vec2l _ _ => .vec2Field
  | .vec3l _ _ _ => .vec3Field
  | .vec4l _ _ _ _ => .vec4Field

/-- The numeric components of a leaf field, in declaration order. -/
def Leaf.comps : Leaf → List F
  | .f32l v => [v]
  | .vec2l x y => [x, y]
  | .vec3l x y z => [x, y, z]
  | .vec4l x y z w => [x, y, z, w]

/-- `impl_correct_function` (interpolate.rs, lines 72-121): every
component of every field is divided by `w`. -/
def leafCorrect (l : Leaf) (w : F) : Leaf :=
  match l with
  | .f32l v => .f32l (v / w)
  | .vec2l x y => .vec2l (x / w) (y / w)
  | .vec3l x y z => .vec3l (x / w) (y / w) (z / w)
  | .vec4l x y z w' => .vec4l (x / w) (y / w) (z / w) (w' / w)

/-- `impl_interpolate_function` (interpolate.rs, lines 124-175): every
component of every field becomes
`((w0 * v0.f) + (w1 * v1.f) + (w2 * v2.f)) / w`.  The kinds of the three
arguments always agree because the generated implementation is for one
struct type; mismatched kinds (unreachable) return the first argument. -/
def leafInterpolate (l0 l1 l2 : Leaf) (w0 w1 w2 w : F) : Leaf :=
  match l0, l1, l2 with
  | .f32l a, .f32l b, .f32l c => .f32l ((w0 * a + w1 * b + w2 * c) / w)
  | .vec2l a1 a2, .vec2l b1 b2, .vec2l c1 c2 =>
      .vec2l ((w0 * a1 + w1 * b1 + w2 * c1) / w) ((w0 * a2 + w1 * b2 + w2 * c2) / w)
  | .vec3l a1 a2 a3, .vec3l b1 b2 b3, .vec3l c1 c2 c3 =>
      .vec3l ((w0 * a1 + w1 * b1 + w2 * c1) / w) ((w0 * a2 + w1 * b2 + w2 * c2) / w)
        ((w0 * a3 + w1 * b3 + w2 * c3) / w)
  | .vec4l a1 a2 a3 a4, .vec4l b1 b2 b3 b4, .vec4l c1 c2 c3 c4 =>
      .vec4l ((w0 * a1 + w1 * b1 + w2 * c1) / w) ((w0 * a2 + w1 * b2 + w2 * c2) / w)
        ((w0 * a3 + w1 * b3 + w2 * c3) / w) ((w0 * a4 + w1 * b4 + w2 * c4) / w)
  | _, _, _ => l0

/-- A varying struct value: the list of its leaf-field values. -/
def Bundle : Type := List Leaf

/-- The field-kind signature of a bundle. -/
def bundleShape (b : Bundle) : List FieldKind := b.map Leaf.kind

/-- The generated `correct` applied to a whole struct: fieldwise. -/
def bundleCorrect (b : Bundle) (w : F) : Bundle :=
  b.map (fun l => leafCorrect l w)

/-- Three-list `zipWith`, the shape of the generated fieldwise code. -/
def zipWith3 (f : α → β → γ → δ) : List α → List β → List γ → List δ
  | a :: as, b :: bs, c :: cs => f a b c :: zipWith3 f as bs cs
  | _, _, _ => []

/-- The generated `interpolate` applied to a whole struct: fieldwise. -/
def bundleInterpolate (b0 b1 b2 : Bundle) (w0 w1 w2 w : F) : Bundle :=
  zipWith3 (fun l0 l1 l2 => leafInterpolate l0 l1 l2 w0 w1 w2 w) b0 b1 b2

/-- Trivial interpolation ops for a `Unit` varying (concrete instances). -/
def trivOps : InterpOps Unit :=
  ⟨fun _ _ => (), fun _ _ _ _ _ _ _ => ()⟩

/-- In-bounds predicate for a recorded event's coordinates, with respect
to a width/height pair. -/
def evInBounds (width height : ℕ) : Ev C → Prop
  | .depthGet x y _ => 0 ≤ x ∧ x < (width : ℤ) ∧ 0 ≤ y ∧ y < (height : ℤ)
  | .depthSet x y _ => 0 ≤ x ∧ x < (width : ℤ) ∧ 0 ≤ y ∧ y < (height : ℤ)
  | .targetSet x y _ => 0 ≤ x ∧ x < (width : ℤ) ∧ 0 ≤ y ∧ y < (height : ℤ)
  | .fragCall => True

/-- An event's coordinates equal a given pixel (fragment invocations carry
no coordinates). -/
def evAt (xy : ℤ × ℤ) : Ev C → Prop
  | .depthGet x y _ => x = xy.1 ∧ y = xy.2
  | .depthSet x y _ => x = xy.1 ∧ y = xy.2
  | .targetSet x y _ => x = xy.1 ∧ y = xy.2
  | .fragCall => True

/-- The color the fragment stage produces at a pixel (pure in the pixel
and the triangle constants). -/
def stepColor (ctx : FragCtx V C) (xy : ℤ × ℤ) : C :=
  ctx.frag (ctx.ops.interp ctx.var0 ctx.var1 ctx.var2
    (pixelWeights ctx xy.1 xy.2).1 (pixelWeights ctx xy.1 xy.2).2.1
    (pixelWeights ctx xy.1 xy.2).2.2 (pixelDepth ctx xy.1 xy.2))

/-! ## Supporting lemmas -/

theorem mem_intRange {lo hi a : ℤ} (h : a ∈ intRange lo hi) : lo ≤ a ∧ a ≤ hi := by
  unfold intRange at h
  rw [List.mem_map] at h
  obtain ⟨k, hk, rfl⟩ := h
  rw [List.mem_range] at hk
  omega

theorem drawLineVisits_mem {W H : ℕ} {x0 x1 y : ℤ} {xy : ℤ × ℤ}
    (h : xy ∈ drawLineVisits W H x0 x1 y) :
    0 ≤ xy.1 ∧ xy.1 < (W : ℤ) ∧ 0 ≤ xy.2 ∧ xy.2 < (H : ℤ) := by
  unfold drawLineVisits at h
  split at h
  · simp at h
  · rename_i hy
    push_neg at hy
    simp only [List.mem_map] at h
    obtain ⟨x, hx, rfl⟩ := h
    have hb := mem_intRange hx
    refine ⟨?_, ?_, hy.1, hy.2⟩ <;> omega

theorem bottomFlatVisits_mem {W H : ℕ} {p0 p1 p2 : Vec2q} {xy : ℤ × ℤ}
    (h : xy ∈ bottomFlatVisits W H p0 p1 p2) :
    0 ≤ xy.1 ∧ xy.1 < (W : ℤ) ∧ 0 ≤ xy.2 ∧ xy.2 < (H : ℤ) := by
  unfold bottomFlatVisits at h
  simp only [List.mem_flatMap, List.mem_range] at h
  obtain ⟨k, _, hk⟩ := h
  exact drawLineVisits_mem hk

theorem topFlatVisits_mem {W H : ℕ} {p0 p1 p2 : Vec2q} {xy : ℤ × ℤ}
    (h : xy ∈ topFlatVisits W H p0 p1 p2) :
    0 ≤ xy.1 ∧ xy.1 < (W : ℤ) ∧ 0 ≤ xy.2 ∧ xy.2 < (H : ℤ) := by
  unfold topFlatVisits at h
  simp only [List.mem_flatMap, List.mem_range] at h
  obtain ⟨k, _, hk⟩ := h
  exact drawLineVisits_mem hk

theorem fragmentVisits_mem {W H : ℕ} {c0 c1 c2 : Vec2q} {xy : ℤ × ℤ}
    (h : xy ∈ fragmentVisits W H c0 c1 c2) :
    0 ≤ xy.1 ∧ xy.1 < (W : ℤ) ∧ 0 ≤ xy.2 ∧ xy.2 < (H : ℤ) := by
  simp only [fragmentVisits] at h
  split_ifs at h
  · exact bottomFlatVisits_mem h
  · exact topFlatVisits_mem h
  · rcases List.mem_append.1 h with h | h
    · exact bottomFlatVisits_mem h
    · exact topFlatVisits_mem h

theorem pixelStep_pass {ctx : FragCtx V C} {st : RState C} {x y : ℤ}
    (h : depthPasses (pixelDepth ctx x y) (st.depth.get x.toNat y.toNat)) :
    pixelStep ctx st (x, y) =
      { depth := st.depth.set x.toNat y.toNat (pixelDepth ctx x y)
        target := st.target.set x.toNat y.toNat (stepColor ctx (x, y))
        events := st.events ++
          [.depthGet x y (st.depth.get x.toNat y.toNat),
           .depthSet x y (pixelDepth ctx x y), .fragCall,
           .targetSet x y (stepColor ctx (x, y))] } := by
  simp [pixelStep, h, stepColor]

theorem pixelStep_fail {ctx : FragCtx V C} {st : RState C} {x y : ℤ}
    (h : ¬ depthPasses (pixelDepth ctx x y) (st.depth.get x.toNat y.toNat)) :
    pixelStep ctx st (x, y) =
      { st with events := st.events ++
          [.depthGet x y (st.depth.get x.toNat y.toNat)] } := by
  simp [pixelStep, h]

theorem pixelStep_events (ctx : FragCtx V C) (st : RState C) (xy : ℤ × ℤ) :
    ∃ t, (pixelStep ctx st xy).events = st.events ++ t ∧ ∀ e ∈ t, evAt xy e := by
  obtain ⟨x, y⟩ := xy
  by_cases h : depthPasses (pixelDepth ctx x y) (st.depth.get x.toNat y.toNat)
  · rw [pixelStep_pass h]
    refine ⟨_, rfl, ?_⟩
    intro e he
    rcases he with _ | ⟨_, _ | ⟨_, _ | ⟨_, _ | ⟨_, ⟨⟩⟩⟩⟩⟩ <;> simp [evAt]
  · rw [pixelStep_fail h]
    refine ⟨_, rfl, ?_⟩
    intro e he
    rcases he with _ | ⟨_, ⟨⟩⟩
    simp [evAt]

theorem foldl_pixelStep_events (ctx : FragCtx V C) (vs : List (ℤ × ℤ)) (st : RState C) :
    ∀ e ∈ (vs.foldl (pixelStep ctx) st).events, e ∈ st.events ∨ ∃ xy ∈ vs, evAt xy e := by
  induction vs generalizing st with
  | nil => exact fun e he => .inl he
  | cons a vs ih =>
    intro e he
    rw [List.foldl_cons] at he
    rcases ih (pixelStep ctx st a) e he with h | ⟨xy, hxy, hev⟩
    · obtain ⟨t, ht, hall⟩ := pixelStep_events ctx st a
      rw [ht] at h
      rcases List.mem_append.1 h with h | h
      · exact .inl h
      · exact .inr ⟨a, List.mem_cons_self a vs, hall e h⟩
    · exact .inr ⟨xy, List.mem_cons_of_mem _ hxy, hev⟩

theorem pixelStep_dims (ctx : FragCtx V C) (st : RState C) (xy : ℤ × ℤ) :
    (pixelStep ctx st xy).depth.width = st.depth.width ∧
    (pixelStep ctx st xy).depth.height = st.depth.height ∧
    (pixelStep ctx st xy).depth.data.length = st.depth.data.length ∧
    (pixelStep ctx st xy).target.width = st.target.width ∧
    (pixelStep ctx st xy).target.height = st.target.height := by
  obtain ⟨x, y⟩ := xy
  by_cases h : depthPasses (pixelDepth ctx x y) (st.depth.get x.toNat y.toNat)
  · rw [pixelStep_pass h]; simp [DepthBuffer.set, Target.set]
  · rw [pixelStep_fail h]; simp

theorem foldl_pixelStep_dims (ctx : FragCtx V C) (vs : List (ℤ × ℤ)) (st : RState C) :
    (vs.foldl (pixelStep ctx) st).depth.width = st.depth.width ∧
    (vs.foldl (pixelStep ctx) st).depth.height = st.depth.height ∧
    (vs.foldl (pixelStep ctx) st).depth.data.length = st.depth.data.length ∧
    (vs.foldl (pixelStep ctx) st).target.width = st.target.width ∧
    (vs.foldl (pixelStep ctx) st).target.height = st.target.height := by
  induction vs generalizing st with
  | nil => exact ⟨rfl, rfl, rfl, rfl, rfl⟩
  | cons a vs ih =>
    rw [List.foldl_cons]
    obtain ⟨h1, h2, h3, h4, h5⟩ := ih (pixelStep ctx st a)
    obtain ⟨g1, g2, g3, g4, g5⟩ := pixelStep_dims ctx st a
    exact ⟨h1.trans g1, h2.trans g2, h3.trans g3, h4.trans g4, h5.trans g5⟩

theorem idx_lt_of_bounds {W H : ℕ} {x y : ℤ} (hx0 : 0 ≤ x) (hx : x < (W : ℤ))
    (hy0 : 0 ≤ y) (hy : y < (H : ℤ)) : x.toNat + y.toNat * W < W * H := by
  have hx' : x.toNat < W := by omega
  have hy' : y.toNat < H := by omega
  calc x.toNat + y.toNat * W < W + y.toNat * W := by omega
    _ = (y.toNat + 1) * W := by ring
    _ ≤ H * W := Nat.mul_le_mul_right W (by omega)
    _ = W * H := Nat.mul_comm H W

theorem pixelStep_depth_le (ctx : FragCtx V C) (st : RState C) (xy : ℤ × ℤ) (i : ℕ) :
    st.depth.data.getD i 0 ≤ (pixelStep ctx st xy).depth.data.getD i 0 := by
  obtain ⟨x, y⟩ := xy
  by_cases h : depthPasses (pixelDepth ctx x y) (st.depth.get x.toNat y.toNat)
  · rw [pixelStep_pass h]
    show st.depth.data.getD i 0 ≤
      (st.depth.data.set (x.toNat + y.toNat * st.depth.width)
        (pixelDepth ctx x y)).getD i 0
    by_cases hij : i = x.toNat + y.toNat * st.depth.width
    · rw [hij]
      by_cases hlen : x.toNat + y.toNat * st.depth.width < st.depth.data.length
      · simp only [List.getD_eq_getElem?_getD]
        rw [List.getElem?_set_self hlen, Option.getD_some]
        exact le_of_lt
          (by simpa [depthPasses, DepthBuffer.get, List.getD_eq_getElem?_getD] using h)
      · rw [List.set_eq_of_length_le (le_of_not_lt hlen)]
    · simp only [List.getD_eq_getElem?_getD]
      rw [List.getElem?_set_ne (fun hh => hij hh.symm)]
  · rw [pixelStep_fail h]

theorem foldl_pixelStep_depth_le (ctx : FragCtx V C) (vs : List (ℤ × ℤ)) (st : RState C)
    (i : ℕ) :
    st.depth.data.getD i 0 ≤ ((vs.foldl (pixelStep ctx) st).depth.data.getD i 0) := by
  induction vs generalizing st with
  | nil => exact le_refl _
  | cons a vs ih =>
    rw [List.foldl_cons]
    exact le_trans (pixelStep_depth_le ctx st a i) (ih _)

theorem pixelStep_ge_self (ctx : FragCtx V C) (st : RState C) (xy : ℤ × ℤ)
    (hj : xy.1.toNat + xy.2.toNat * st.depth.width < st.depth.data.length) :
    pixelDepth ctx xy.1 xy.2 ≤
      (pixelStep ctx st xy).depth.data.getD (xy.1.toNat + xy.2.toNat * st.depth.width) 0 := by
  obtain ⟨x, y⟩ := xy
  by_cases h : depthPasses (pixelDepth ctx x y) (st.depth.get x.toNat y.toNat)
  · rw [pixelStep_pass h]
    show pixelDepth ctx x y ≤
      (st.depth.data.set (x.toNat + y.toNat * st.depth.width)
        (pixelDepth ctx x y)).getD (x.toNat + y.toNat * st.depth.width) 0
    rw [List.getD_eq_getElem?_getD, List.getElem?_set_self hj, Option.getD_some]
  · rw [pixelStep_fail h]
    exact not_lt.1 h

theorem foldl_pixelStep_ge_visits (ctx : FragCtx V C) (vs : List (ℤ × ℤ)) (st : RState C)
    (hwf : st.depth.data.length = st.depth.width * st.depth.height)
    (hb : ∀ xy ∈ vs, 0 ≤ xy.1 ∧ xy.1 < (st.depth.width : ℤ) ∧ 0 ≤ xy.2 ∧
      xy.2 < (st.depth.height : ℤ)) :
    ∀ xy ∈ vs, pixelDepth ctx xy.1 xy.2 ≤
      (vs.foldl (pixelStep ctx) st).depth.data.getD
        (xy.1.toNat + xy.2.toNat * st.depth.width) 0 := by
  induction vs generalizing st with
  | nil => intro xy hxy; cases hxy
  | cons a vs ih =>
    intro xy hxy
    obtain ⟨dW, dH, dL, _, _⟩ := pixelStep_dims ctx st a
    rw [List.foldl_cons]
    rcases List.mem_cons.1 hxy with rfl | hxy'
    · have hab := hb xy (List.mem_cons_self xy vs)
      have hj : xy.1.toNat + xy.2.toNat * st.depth.width < st.depth.data.length := by
        rw [hwf]
        exact idx_lt_of_bounds hab.1 hab.2.1 hab.2.2.1 hab.2.2.2
      exact le_trans (pixelStep_ge_self ctx st xy hj) (foldl_pixelStep_depth_le ctx vs _ _)
    · have hwf' : (pixelStep ctx st a).depth.data.length =
          (pixelStep ctx st a).depth.width * (pixelStep ctx st a).depth.height := by
        rw [dW, dH, dL]; exact hwf
      have hb' : ∀ z ∈ vs, 0 ≤ z.1 ∧ z.1 < ((pixelStep ctx st a).depth.width : ℤ) ∧
          0 ≤ z.2 ∧ z.2 < ((pixelStep ctx st a).depth.height : ℤ) := by
        intro z hz
        rw [dW, dH]
        exact hb z (List.mem_cons_of_mem _ hz)
      have hres := ih (pixelStep ctx st a) hwf' hb' xy hxy'
      rwa [dW] at hres

theorem foldl_pixelStep_noop (ctx : FragCtx V C) (vs : List (ℤ × ℤ)) (st : RState C)
    (h : ∀ xy ∈ vs,
      ¬ depthPasses (pixelDepth ctx xy.1 xy.2) (st.depth.get xy.1.toNat xy.2.toNat)) :
    (vs.foldl (pixelStep ctx) st).depth = st.depth ∧
    (vs.foldl (pixelStep ctx) st).target = st.target := by
  induction vs generalizing st with
  | nil => exact ⟨rfl, rfl⟩
  | cons a vs ih =>
    obtain ⟨ax, ay⟩ := a
    have ha := h (ax, ay) (List.mem_cons_self (ax, ay) vs)
    rw [List.foldl_cons, pixelStep_fail ha]
    exact ih _ (fun xy hxy => h xy (List.mem_cons_of_mem _ hxy))

theorem triangle_eq {TU TVert V C : Type} (ops : InterpOps V)
    (vm : TU → TVert → Vec4q × V) (fm : TU → V → C) (depth : DepthBuffer)
    (target : Target C) (u : TU) (v0 v1 v2 : TVert) :
    triangle ops vm fm depth target u v0 v1 v2 =
      if zReject (vm u v0).1 (vm u v1).1 (vm u v2).1 then ⟨depth, target, []⟩
      else if 0 ≤ edgeQ (screenMap (vm u v0).1 (target.width : F) (target.height : F))
          (screenMap (vm u v1).1 (target.width : F) (target.height : F))
          (screenMap (vm u v2).1 (target.width : F) (target.height : F)) then
        runFragment (triCtx ops vm fm u v0 v1 v2 target.width target.height)
          ⟨depth, target, []⟩
      else ⟨depth, target, []⟩ := rfl

/-! ## Claims -/

/-- C1 (counterexample): the claim's formula `(x/w)*targetWidth/2 +
targetWidth/2` disagrees with the code at clip position `(1, 0, 0, 2)` on
a 4-wide target: the code computes `floor((1/2)*4 + 2) = 4`, the claim's
formula gives `(1/2)*2 + 2 = 3`. -/
theorem c1_screen_mapping_counterexample :
    (screenMap ⟨1, 0, 0, 2⟩ 4 4).x ≠ (1 / 2 : F) * (4 / 2) + 4 / 2 := by
  norm_num [screenMap, floorQ]

/-- C1 (amended): for every vertex whose clip position has nonzero `w`,
the screen-space x computed during screen mapping equals
`floor((x/w)*targetWidth + targetWidth/2)` (scale by the full width), and
the y component analogously with a sign flip:
`floor((-y/w)*targetHeight + targetHeight/2)`. -/
theorem c1_screen_mapping_amended (p : Vec4q) (W H : F) (_hw : p.w ≠ 0) :
    (screenMap p W H).x = floorQ ((p.x / p.w) * W + W / 2) ∧
    (screenMap p W H).y = floorQ ((-p.y / p.w) * H + H / 2) := by
  unfold screenMap
  constructor
  · show floorQ ((p.x / p.w) * W + W * (0.5 : F)) = _
    congr 1
    ring
  · show floorQ ((-p.y / p.w) * H + H * (0.5 : F)) = _
    congr 1
    ring

theorem c1_screen_mapping_amended_witness :
    ((⟨1, 0, 0, 2⟩ : Vec4q).w ≠ 0) ∧
    ((screenMap ⟨1, 0, 0, 2⟩ 4 4).x = floorQ (((1 : F) / 2) * 4 + 4 / 2) ∧
      (screenMap ⟨1, 0, 0, 2⟩ 4 4).y = floorQ ((-(0 : F) / 2) * 4 + 4 / 2)) :=
  ⟨by norm_num, c1_screen_mapping_amended ⟨1, 0, 0, 2⟩ 4 4 (by norm_num)⟩

/-- C2 (code bug): `clear()` fills every cell with `f32::MAX` (shown here
for a 1×1 and a 3×2 buffer), but the rasterizer's depth comparison passes
only when the fragment depth strictly exceeds the stored value, so a
fragment of finite depth (e.g. 1) can never pass the depth test against a
freshly cleared buffer — the sentinel is inconsistent with the
comparison direction. -/
theorem c2_clear_sentinel_blocks_finite_depth :
    (DepthBuffer.new 1 1).clear.get 0 0 = f32Max ∧
    (DepthBuffer.new 3 2).clear.get 2 1 = f32Max ∧
    ¬ depthPasses 1 ((DepthBuffer.new 1 1).clear.get 0 0) := by
  refine ⟨?_, ?_, ?_⟩ <;>
    norm_num [DepthBuffer.new, DepthBuffer.clear, DepthBuffer.get, depthPasses,
      f32Max, List.replicate_succ]

/-- The concrete degenerate-triangle run for C3: all three clip positions
coincide at `(0, 0, 1, 1)` over a 2×2 target and a fresh depth buffer;
all three screen positions are `(1, 1)` and the signed area is zero. -/
def c3run : RState Unit :=
  triangle trivOps (fun (_ : Unit) (_ : Unit) => ((⟨0, 0, 1, 1⟩ : Vec4q), ()))
    (fun _ _ => ()) (DepthBuffer.new 2 2) (Target.new 2 2 ()) () () () ()

/-- C3 (code bug): a triangle whose `edgeTotal` is exactly zero is not
discarded before per-pixel work — the winding test `edge >= 0` admits it,
the scanline loops run, and the depth buffer is read at pixel (1, 1)
(the recorded trace is exactly one `DepthBuffer::get`). -/
theorem c3_zero_area_reaches_pixel_work :
    edgeQ (screenMap ⟨0, 0, 1, 1⟩ 2 2) (screenMap ⟨0, 0, 1, 1⟩ 2 2)
      (screenMap ⟨0, 0, 1, 1⟩ 2 2) = 0 ∧
    c3run.events = [Ev.depthGet 1 1 0] := by
  constructor
  · norm_num [edgeQ, screenMap, floorQ]
  · norm_num [c3run, triangle, triCtx, runFragment, fragmentVisits, sortByY,
      bottomFlatVisits, topFlatVisits, drawLineVisits, intRange, pixelStep,
      pixelWeights, pixelDepth, edgeQ, screenMap, floorQ, truncQ, zReject, trivOps,
      DepthBuffer.new, Target.new, DepthBuffer.get, depthPasses, List.range_succ,
      List.flatMap_cons, List.foldl_cons]

/-- C5 (code bug): the only discard `Raster::triangle` performs before the
perspective divide is the `z < 0` test, and that test does not fire on a
clip position with `w = 0` (and nonnegative z), so the divide by `w` is
reached rather than the triangle being discarded. -/
theorem c5_no_w_zero_guard :
    (⟨1, 1, 1, 0⟩ : Vec4q).w = 0 ∧
    zReject ⟨1, 1, 1, 0⟩ ⟨1, 1, 1, 0⟩ ⟨1, 1, 1, 0⟩ = false :=
  ⟨rfl, by norm_num [zReject]⟩

/-- The vertex program of the C8 witness: constant clip position with
negative z. -/
def vmC8 : Unit → Unit → Vec4q × Unit := fun _ _ => (⟨0, 0, -1, 1⟩, ())

/-- C8: if any vertex's clip position has `z < 0`, the whole triangle is
discarded and the depth buffer and target are returned unchanged, with no
recorded buffer access or fragment invocation. -/
theorem c8_z_reject_discards {TU TVert V C : Type} (ops : InterpOps V)
    (vm : TU → TVert → Vec4q × V) (fm : TU → V → C) (depth : DepthBuffer)
    (target : Target C) (u : TU) (v0 v1 v2 : TVert)
    (h : (vm u v0).1.z < 0 ∨ (vm u v1).1.z < 0 ∨ (vm u v2).1.z < 0) :
    triangle ops vm fm depth target u v0 v1 v2 = ⟨depth, target, []⟩ := by
  rw [triangle_eq]
  have hz : zReject (vm u v0).1 (vm u v1).1 (vm u v2).1 = true := by
    unfold zReject
    rcases h with h | h | h <;> simp [h]
  simp [hz]

theorem c8_z_reject_discards_witness :
    ((vmC8 () ()).1.z < 0 ∨ (vmC8 () ()).1.z < 0 ∨ (vmC8 () ()).1.z < 0) ∧
    triangle trivOps vmC8 (fun _ _ => ()) (DepthBuffer.new 2 2) (Target.new 2 2 ()) () () () ()
      = ⟨DepthBuffer.new 2 2, Target.new 2 2 (), []⟩ :=
  ⟨Or.inl (by norm_num [vmC8]),
   c8_z_reject_discards trivOps vmC8 (fun _ _ => ()) (DepthBuffer.new 2 2)
     (Target.new 2 2 ()) () () () () (Or.inl (by norm_num [vmC8]))⟩

/-- C10: at every pixel considered during scan conversion, the depth
buffer is written and the fragment program invoked if and only if the
fragment's interpolated depth is strictly greater than the stored value
(the events appended by the per-pixel body witness the write and the
invocation); on an exact tie both buffers are left unchanged, so the
first-written fragment persists. -/
theorem c10_strict_depth_test {V C : Type} (ctx : FragCtx V C) (st : RState C) (x y : ℤ) :
    ((Ev.fragCall ∈ ((pixelStep ctx st (x, y)).events.drop st.events.length) ∧
      Ev.depthSet x y (pixelDepth ctx x y) ∈
        ((pixelStep ctx st (x, y)).events.drop st.events.length)) ↔
      depthPasses (pixelDepth ctx x y) (st.depth.get x.toNat y.toNat)) ∧
    (pixelDepth ctx x y = st.depth.get x.toNat y.toNat →
      (pixelStep ctx st (x, y)).depth = st.depth ∧
      (pixelStep ctx st (x, y)).target = st.target) := by
  by_cases h : depthPasses (pixelDepth ctx x y) (st.depth.get x.toNat y.toNat)
  · refine ⟨?_, ?_⟩
    · rw [pixelStep_pass h, List.drop_left]
      simp [h]
    · intro he
      exfalso
      rw [depthPasses, he] at h
      exact lt_irrefl _ h
  · refine ⟨?_, ?_⟩
    · rw [pixelStep_fail h, List.drop_left]
      simp [h]
    · intro _
      rw [pixelStep_fail h]
      exact ⟨rfl, rfl⟩

/-- The concrete pixel context of the C10 witness: screen triangle
`(0,0), (0,2), (2,0)`, all corrected z equal 1. -/
def ctxC10 : FragCtx Unit Unit :=
  { ops := trivOps, frag := fun _ => (), var0 := (), var1 := (), var2 := ()
    c0 := ⟨0, 0⟩, c1 := ⟨0, 2⟩, c2 := ⟨2, 0⟩, z0 := 1, z1 := 1, z2 := 1 }

/-- The concrete starting state of the C10 witness. -/
def stC10 : RState Unit :=
  ⟨DepthBuffer.new 2 2, Target.new 2 2 (), []⟩

theorem c10_strict_depth_test_witness :
    Ev.fragCall ∈ ((pixelStep ctxC10 stC10 (0, 0)).events.drop stC10.events.length) :=
  (((c10_strict_depth_test ctxC10 stC10 0 0).1).mpr
    (by norm_num [depthPasses, pixelDepth, pixelWeights, ctxC10, stC10, edgeQ,
      DepthBuffer.new, DepthBuffer.get, List.replicate_succ])).1

/-- C4: exchanging any two of the three input vertices flips the sign of
the signed edge-function total over the screen positions (first
conjunct, for arbitrary screen positions), and when the original
triangle is strictly front-facing (`edgeTotal > 0`), each of the three
transposed submissions is culled by the winding test: the run returns
the depth buffer and target unchanged with an empty trace (no depth
writes, no fragment invocations, no target writes). -/
theorem c4_swap_flips_sign_and_culls {TU TVert V C : Type} (ops : InterpOps V)
    (vm : TU → TVert → Vec4q × V) (fm : TU → V → C) (depth : DepthBuffer)
    (target : Target C) (u : TU) (v0 v1 v2 : TVert)
    (h : 0 < edgeQ (screenMap (vm u v0).1 (target.width : F) (target.height : F))
        (screenMap (vm u v1).1 (target.width : F) (target.height : F))
        (screenMap (vm u v2).1 (target.width : F) (target.height : F))) :
    (∀ a b c : Vec2q, edgeQ b a c = -edgeQ a b c ∧ edgeQ a c b = -edgeQ a b c ∧
      edgeQ c b a = -edgeQ a b c) ∧
    triangle ops vm fm depth target u v1 v0 v2 = ⟨depth, target, []⟩ ∧
    triangle ops vm fm depth target u v0 v2 v1 = ⟨depth, target, []⟩ ∧
    triangle ops vm fm depth target u v2 v1 v0 = ⟨depth, target, []⟩ := by
  have hflip : ∀ a b c : Vec2q, edgeQ b a c = -edgeQ a b c ∧ edgeQ a c b = -edgeQ a b c ∧
      edgeQ c b a = -edgeQ a b c := by
    intro a b c
    refine ⟨?_, ?_, ?_⟩ <;> (unfold edgeQ; ring)
  refine ⟨hflip, ?_, ?_, ?_⟩
  · rw [triangle_eq]
    have hneg : ¬ (0 ≤ edgeQ (screenMap (vm u v1).1 (target.width : F) (target.height : F))
        (screenMap (vm u v0).1 (target.width : F) (target.height : F))
        (screenMap (vm u v2).1 (target.width : F) (target.height : F))) := by
      rw [(hflip _ _ _).1]
      simpa using h
    split_ifs <;> rfl
  · rw [triangle_eq]
    have hneg : ¬ (0 ≤ edgeQ (screenMap (vm u v0).1 (target.width : F) (target.height : F))
        (screenMap (vm u v2).1 (target.width : F) (target.height : F))
        (screenMap (vm u v1).1 (target.width : F) (target.height : F))) := by
      rw [(hflip _ _ _).2.1]
      simpa using h
    split_ifs <;> rfl
  · rw [triangle_eq]
    have hneg : ¬ (0 ≤ edgeQ (screenMap (vm u v2).1 (target.width : F) (target.height : F))
        (screenMap (vm u v1).1 (target.width : F) (target.height : F))
        (screenMap (vm u v0).1 (target.width : F) (target.height : F))) := by
      rw [(hflip _ _ _).2.2]
      simpa using h
    split_ifs <;> rfl

/-- The vertex program of the C4 witness: three distinct clip positions
mapping to the screen triangle `(0,0), (0,3), (3,0)` on a 4×4 target
(signed area 9 > 0). -/
def vmC4 : Unit → ℕ → Vec4q × Unit := fun _ i =>
  (if i = 0 then ⟨-1/2, 1/2, 1, 1⟩ else
   if i = 1 then ⟨-1/2, -1/4, 1, 1⟩ else ⟨1/4, 1/2, 1, 1⟩, ())

theorem c4_swap_flips_sign_and_culls_witness :
    (0 < edgeQ (screenMap (vmC4 () 0).1 ((Target.new 4 4 ()).width : F)
        ((Target.new 4 4 ()).height : F))
      (screenMap (vmC4 () 1).1 ((Target.new 4 4 ()).width : F)
        ((Target.new 4 4 ()).height : F))
      (screenMap (vmC4 () 2).1 ((Target.new 4 4 ()).width : F)
        ((Target.new 4 4 ()).height : F))) ∧
    ((∀ a b c : Vec2q, edgeQ b a c = -edgeQ a b c ∧ edgeQ a c b = -edgeQ a b c ∧
        edgeQ c b a = -edgeQ a b c) ∧
      triangle trivOps vmC4 (fun _ _ => ()) (DepthBuffer.new 4 4) (Target.new 4 4 ()) () 1 0 2
        = ⟨DepthBuffer.new 4 4, Target.new 4 4 (), []⟩ ∧
      triangle trivOps vmC4 (fun _ _ => ()) (DepthBuffer.new 4 4) (Target.new 4 4 ()) () 0 2 1
        = ⟨DepthBuffer.new 4 4, Target.new 4 4 (), []⟩ ∧
      triangle trivOps vmC4 (fun _ _ => ()) (DepthBuffer.new 4 4) (Target.new 4 4 ()) () 2 1 0
        = ⟨DepthBuffer.new 4 4, Target.new 4 4 (), []⟩) :=
  have h : 0 < edgeQ (screenMap (vmC4 () 0).1 ((Target.new 4 4 ()).width : F)
      ((Target.new 4 4 ()).height : F))
    (screenMap (vmC4 () 1).1 ((Target.new 4 4 ()).width : F)
      ((Target.new 4 4 ()).height : F))
    (screenMap (vmC4 () 2).1 ((Target.new 4 4 ()).width : F)
      ((Target.new 4 4 ()).height : F)) := by
    norm_num [vmC4, Target.new, edgeQ, screenMap, floorQ]
  ⟨h, c4_swap_flips_sign_and_culls trivOps vmC4 (fun _ _ => ()) (DepthBuffer.new 4 4)
    (Target.new 4 4 ()) () 0 1 2 h⟩

/-- C6: for every pair of leaf fields of matching kind and every struct
shape, the generated `interpolate` computes, component-wise,
`(w0*v0.f + w1*v1.f + w2*v2.f) / invW`, and the generated `correct`
divides every component of every leaf field by `w` — both at the level
of a single leaf field and lifted fieldwise to whole bundles. -/
theorem c6_interpolation_protocol :
    (∀ (l0 l1 l2 : Leaf) (w0 w1 w2 w : F), l0.kind = l1.kind → l0.kind = l2.kind →
      (leafInterpolate l0 l1 l2 w0 w1 w2 w).comps =
        zipWith3 (fun a b c => (w0 * a + w1 * b + w2 * c) / w) l0.comps l1.comps l2.comps) ∧
    (∀ (l : Leaf) (w : F), (leafCorrect l w).comps = l.comps.map (fun a => a / w)) ∧
    (∀ (b0 b1 b2 : Bundle) (w0 w1 w2 w : F), bundleShape b0 = bundleShape b1 →
      bundleShape b0 = bundleShape b2 →
      (bundleInterpolate b0 b1 b2 w0 w1 w2 w).map Leaf.comps =
        zipWith3 (fun ca cb cc =>
            zipWith3 (fun a b c => (w0 * a + w1 * b + w2 * c) / w) ca cb cc)
          (b0.map Leaf.comps) (b1.map Leaf.comps) (b2.map Leaf.comps)) ∧
    (∀ (b : Bundle) (w : F),
      (bundleCorrect b w).map Leaf.comps = b.map (fun l => l.comps.map (fun a => a / w))) := by
  have hleaf : ∀ (l0 l1 l2 : Leaf) (w0 w1 w2 w : F), l0.kind = l1.kind → l0.kind = l2.kind →
      (leafInterpolate l0 l1 l2 w0 w1 w2 w).comps =
        zipWith3 (fun a b c => (w0 * a + w1 * b + w2 * c) / w) l0.comps l1.comps l2.comps := by
    intro l0 l1 l2 w0 w1 w2 w h01 h02
    cases l0 <;> cases l1 <;> cases l2 <;>
      simp_all [Leaf.kind, leafInterpolate, Leaf.comps, zipWith3]
  refine ⟨hleaf, ?_, ?_, ?_⟩
  · intro l w
    cases l <;> simp [leafCorrect, Leaf.comps]
  · intro b0
    induction b0 with
    | nil =>
      intro b1 b2 w0 w1 w2 w h01 h02
      have hb1 : b1 = [] := by
        simpa [bundleShape] using h01.symm
      have hb2 : b2 = [] := by
        simpa [bundleShape] using h02.symm
      subst hb1; subst hb2
      rfl
    | cons l0 t0 ih =>
      intro b1 b2 w0 w1 w2 w h01 h02
      cases b1 with
      | nil => simp [bundleShape] at h01
      | cons l1 t1 =>
        cases b2 with
        | nil => simp [bundleShape] at h02
        | cons l2 t2 =>
          simp only [bundleShape, List.map_cons, List.cons.injEq] at h01 h02
          simp only [bundleInterpolate, zipWith3, List.map_cons, List.cons.injEq]
          constructor
          · exact hleaf l0 l1 l2 w0 w1 w2 w h01.1 h02.1
          · have := ih t1 t2 w0 w1 w2 w (by simpa [bundleShape] using h01.2)
              (by simpa [bundleShape] using h02.2)
            simpa [bundleInterpolate] using this
  · intro b w
    induction b with
    | nil => rfl
    | cons l t ih =>
      simp only [bundleCorrect, List.map_cons, List.cons.injEq]
      refine ⟨?_, by simpa [bundleCorrect] using ih⟩
      cases l <;> simp [leafCorrect, Leaf.comps]

theorem c6_interpolation_protocol_witness :
    (Leaf.kind (.vec2l 1 2) = Leaf.kind (.vec2l 3 4) ∧
      Leaf.kind (.vec2l 1 2) = Leaf.kind (.vec2l 5 6)) ∧
    (leafInterpolate (.vec2l 1 2) (.vec2l 3 4) (.vec2l 5 6) 1 2 3 2).comps =
      zipWith3 (fun a b c => ((1 : F) * a + 2 * b + 3 * c) / 2)
        (Leaf.comps (.vec2l 1 2)) (Leaf.comps (.vec2l 3 4)) (Leaf.comps (.vec2l 5 6)) :=
  ⟨⟨rfl, rfl⟩, c6_interpolation_protocol.1 (.vec2l 1 2) (.vec2l 3 4) (.vec2l 5 6) 1 2 3 2 rfl rfl⟩

/-- C7: when the depth buffer has the same dimensions as the target, every
recorded buffer access of a `Raster::triangle` run (depth reads, depth
writes, target writes) carries coordinates with `0 ≤ x < width` and
`0 ≤ y < height` — rows outside the viewport are skipped and x-ranges are
clamped before any indexed access. -/
theorem c7_accesses_in_bounds {TU TVert V C : Type} (ops : InterpOps V)
    (vm : TU → TVert → Vec4q × V) (fm : TU → V → C) (depth : DepthBuffer)
    (target : Target C) (u : TU) (v0 v1 v2 : TVert)
    (hW : depth.width = target.width) (hH : depth.height = target.height) :
    ∀ e ∈ (triangle ops vm fm depth target u v0 v1 v2).events,
      evInBounds target.width target.height e ∧
      evInBounds depth.width depth.height e := by
  intro e he
  suffices h : evInBounds target.width target.height e by
    rw [hW, hH]
    exact ⟨h, h⟩
  rw [triangle_eq] at he
  split_ifs at he
  · cases he
  · unfold runFragment at he
    rcases foldl_pixelStep_events _ _ _ e he with h0 | ⟨xy, hxy, hat⟩
    · cases h0
    · have hb := fragmentVisits_mem hxy
      cases e with
      | fragCall => exact trivial
      | depthGet a b s =>
        obtain ⟨ha, hb2⟩ := hat
        subst ha
        subst hb2
        exact hb
      | depthSet a b val =>
        obtain ⟨ha, hb2⟩ := hat
        subst ha
        subst hb2
        exact hb
      | targetSet a b c =>
        obtain ⟨ha, hb2⟩ := hat
        subst ha
        subst hb2
        exact hb
  · cases he

theorem c7_accesses_in_bounds_witness :
    ((DepthBuffer.new 4 4).width = (Target.new 4 4 ()).width ∧
      (DepthBuffer.new 4 4).height = (Target.new 4 4 ()).height) ∧
    ∀ e ∈ (triangle trivOps vmC4 (fun _ _ => ()) (DepthBuffer.new 4 4)
        (Target.new 4 4 ()) () 0 1 2).events,
      evInBounds (Target.new 4 4 ()).width (Target.new 4 4 ()).height e ∧
      evInBounds (DepthBuffer.new 4 4).width (DepthBuffer.new 4 4).height e :=
  ⟨⟨rfl, rfl⟩, c7_accesses_in_bounds trivOps vmC4 (fun _ _ => ()) (DepthBuffer.new 4 4)
    (Target.new 4 4 ()) () 0 1 2 rfl rfl⟩

/-- C9: rasterizing the identical triangle a second time, with the same
shader pipeline and inputs, over the depth buffer and target produced by
the first pass leaves both buffers unchanged: the strict greater-than
depth test fails at every revisited pixel because the first pass left
every visited cell at least as deep as the recomputed fragment depth. -/
theorem c9_second_pass_unchanged {TU TVert V C : Type} (ops : InterpOps V)
    (vm : TU → TVert → Vec4q × V) (fm : TU → V → C)
    (depth : DepthBuffer) (target : Target C) (u : TU) (v0 v1 v2 : TVert)
    (hW : depth.width = target.width) (hH : depth.height = target.height)
    (hwf : depth.data.length = depth.width * depth.height) :
    (triangle ops vm fm (triangle ops vm fm depth target u v0 v1 v2).depth
        (triangle ops vm fm depth target u v0 v1 v2).target u v0 v1 v2).depth =
      (triangle ops vm fm depth target u v0 v1 v2).depth ∧
    (triangle ops vm fm (triangle ops vm fm depth target u v0 v1 v2).depth
        (triangle ops vm fm depth target u v0 v1 v2).target u v0 v1 v2).target =
      (triangle ops vm fm depth target u v0 v1 v2).target := by
  by_cases hz : zReject (vm u v0).1 (vm u v1).1 (vm u v2).1 = true
  · have hval : triangle ops vm fm depth target u v0 v1 v2 = ⟨depth, target, []⟩ := by
      rw [triangle_eq, if_pos hz]
    rw [hval]
    dsimp only
    rw [hval]
    exact ⟨rfl, rfl⟩
  · by_cases he : 0 ≤ edgeQ (screenMap (vm u v0).1 (target.width : F) (target.height : F))
        (screenMap (vm u v1).1 (target.width : F) (target.height : F))
        (screenMap (vm u v2).1 (target.width : F) (target.height : F))
    · -- first pass runs the scanline fold
      have hval : triangle ops vm fm depth target u v0 v1 v2 =
          runFragment (triCtx ops vm fm u v0 v1 v2 target.width target.height)
            ⟨depth, target, []⟩ := by
        rw [triangle_eq, if_neg hz, if_pos he]
      set ctx := triCtx ops vm fm u v0 v1 v2 target.width target.height with hctx
      set vs := fragmentVisits target.width target.height ctx.c0 ctx.c1 ctx.c2 with hvs
      have hrf : runFragment ctx (⟨depth, target, []⟩ : RState C) =
          vs.foldl (pixelStep ctx) ⟨depth, target, []⟩ := rfl
      obtain ⟨dW, dH, dL, tW, tH⟩ := foldl_pixelStep_dims ctx vs ⟨depth, target, []⟩
      rw [← hrf] at dW dH dL tW tH
      rw [hval]
      -- dims of the first pass's buffers
      have htW : (runFragment ctx (⟨depth, target, []⟩ : RState C)).target.width =
          target.width := tW
      have htH : (runFragment ctx (⟨depth, target, []⟩ : RState C)).target.height =
          target.height := tH
      -- second pass takes the same branches
      have hval2 : triangle ops vm fm
          (runFragment ctx (⟨depth, target, []⟩ : RState C)).depth
          (runFragment ctx (⟨depth, target, []⟩ : RState C)).target u v0 v1 v2 =
          runFragment ctx
            ⟨(runFragment ctx (⟨depth, target, []⟩ : RState C)).depth,
             (runFragment ctx (⟨depth, target, []⟩ : RState C)).target, []⟩ := by
        rw [triangle_eq, htW, htH, if_neg hz, if_pos he, hctx]
      rw [hval2]
      -- the second fold is a no-op on the buffers
      have hrf2 : runFragment ctx
          (⟨(runFragment ctx (⟨depth, target, []⟩ : RState C)).depth,
            (runFragment ctx (⟨depth, target, []⟩ : RState C)).target, []⟩ : RState C) =
          vs.foldl (pixelStep ctx)
            ⟨(runFragment ctx (⟨depth, target, []⟩ : RState C)).depth,
             (runFragment ctx (⟨depth, target, []⟩ : RState C)).target, []⟩ := by
        show (fragmentVisits
            (runFragment ctx (⟨depth, target, []⟩ : RState C)).target.width
            (runFragment ctx (⟨depth, target, []⟩ : RState C)).target.height
            ctx.c0 ctx.c1 ctx.c2).foldl (pixelStep ctx) _ = _
        rw [htW, htH, hvs]
      rw [hrf2]
      have hb0 : ∀ xy ∈ vs, 0 ≤ xy.1 ∧
          xy.1 < ((⟨depth, target, []⟩ : RState C).depth.width : ℤ) ∧ 0 ≤ xy.2 ∧
          xy.2 < ((⟨depth, target, []⟩ : RState C).depth.height : ℤ) := by
        intro xy hxy
        rw [hvs] at hxy
        have hb := fragmentVisits_mem hxy
        show 0 ≤ xy.1 ∧ xy.1 < (depth.width : ℤ) ∧ 0 ≤ xy.2 ∧ xy.2 < (depth.height : ℤ)
        rw [hW, hH]
        exact hb
      have hge := foldl_pixelStep_ge_visits ctx vs ⟨depth, target, []⟩ hwf hb0
      refine foldl_pixelStep_noop ctx vs _ ?_
      intro xy hxy
      have h1 := hge xy hxy
      rw [← hrf] at h1
      show ¬ depthPasses (pixelDepth ctx xy.1 xy.2)
        ((runFragment ctx (⟨depth, target, []⟩ : RState C)).depth.get xy.1.toNat xy.2.toNat)
      unfold DepthBuffer.get
      rw [dW]
      exact not_lt.2 h1
    · have hval : triangle ops vm fm depth target u v0 v1 v2 = ⟨depth, target, []⟩ := by
        rw [triangle_eq, if_neg hz, if_neg he]
      rw [hval]
      dsimp only
      rw [hval]
      exact ⟨rfl, rfl⟩

/-- The vertex program of the C9 witness (same screen triangle as the C4
witness, submitted in front-facing order). -/
def vmC9 : Unit → ℕ → Vec4q × Unit := vmC4

theorem c9_second_pass_unchanged_witness :
    ((DepthBuffer.new 4 4).width = (Target.new 4 4 ()).width ∧
      (DepthBuffer.new 4 4).height = (Target.new 4 4 ()).height ∧
      (DepthBuffer.new 4 4).data.length =
        (DepthBuffer.new 4 4).width * (DepthBuffer.new 4 4).height) ∧
    ((triangle trivOps vmC9 (fun _ _ => ())
        (triangle trivOps vmC9 (fun _ _ => ()) (DepthBuffer.new 4 4)
          (Target.new 4 4 ()) () 0 2 1).depth
        (triangle trivOps vmC9 (fun _ _ => ()) (DepthBuffer.new 4 4)
          (Target.new 4 4 ()) () 0 2 1).target () 0 2 1).depth =
      (triangle trivOps vmC9 (fun _ _ => ()) (DepthBuffer.new 4 4)
        (Target.new 4 4 ()) () 0 2 1).depth ∧
     (triangle trivOps vmC9 (fun _ _ => ())
        (triangle trivOps vmC9 (fun _ _ => ()) (DepthBuffer.new 4 4)
          (Target.new 4 4 ()) () 0 2 1).depth
        (triangle trivOps vmC9 (fun _ _ => ()) (DepthBuffer.new 4 4)
          (Target.new 4 4 ()) () 0 2 1).target () 0 2 1).target =
      (triangle trivOps vmC9 (fun _ _ => ()) (DepthBuffer.new 4 4)
        (Target.new 4 4 ()) () 0 2 1).target) :=
  ⟨⟨rfl, rfl, by norm_num [DepthBuffer.new]⟩,
   c9_second_pass_unchanged trivOps vmC9 (fun _ _ => ()) (DepthBuffer.new 4 4)
     (Target.new 4 4 ()) () 0 2 1 rfl rfl (by norm_num [DepthBuffer.new])⟩

end Black
